import Mathlib

/-!
Verification of the dqache in-memory cache core (src/database): the entry
table, the LRU/LFU/DQN eviction policies, the bounded cache operations, and
the server protocol engine's handshake and request-loop error handling.

Machine integers (Rust u64) are modelled as Nat; arithmetic that can
overflow is taken modulo 2^64, matching release-mode wrapping semantics.
The HashMap entry table is modelled as an association list in iteration
order (HashMap iteration order is arbitrary but fixed within one call).
-/

deriving instance DecidableEq for Except

/-- Rust u64::MAX, the sentinel initial minimum in the LRU/LFU scan loops. -/
def u64MAX : Nat := 2 ^ 64 - 1

/-- Modulus for wrapping u64 arithmetic. -/
def u64MOD : Nat := 2 ^ 64

/-- One cached value with its access metadata (src/database/src/cache.rs,
struct Entry). -/
structure Entry where
  value : String
  accessed_at : Nat
  access_count : Nat
deriving DecidableEq, Repr

/-- The entry table of the cache: the HashMap String -> Entry viewed as an
association list in iteration order. -/
abbrev Table := List (String × Entry)

/-- Entry.new (cache.rs): fresh entry with access_count 1; unix_epoch() is
passed in as the parameter now. -/
def Entry.new (value : String) (now : Nat) : Entry :=
  ⟨value, now, 1⟩

/-- The common scan loop of LeastRecentlyUsed::select_victim and
LeastFrequentlyUsed::select_victim (model.rs): starting from the sentinel
minimum m (u64::MAX in the source) and key k (the empty string, from
String::new()), update on strict less-than of the measured field f. -/
def selFold (f : Entry → Nat) : Table → Nat → String → String
  | [], _, k => k
  | e :: rest, m, k =>
    if f e.2 < m then selFold f rest (f e.2) e.1 else selFold f rest m k

/-- LeastRecentlyUsed::select_victim (model.rs lines 123-139). -/
def LeastRecentlyUsed.select_victim (entries : Table) : Except String String :=
  if entries.length = 0 then Except.error "entries length must be greater than 0"
  else Except.ok (selFold (fun e => e.accessed_at) entries u64MAX "")

/-- LeastFrequentlyUsed::select_victim (model.rs lines 153-169). -/
def LeastFrequentlyUsed.select_victim (entries : Table) : Except String String :=
  if entries.length = 0 then Except.error "entries length must be greater than 0"
  else Except.ok (selFold (fun e => e.access_count) entries u64MAX "")

theorem selFold_of_ge (f : Entry → Nat) (entries : Table) (m : Nat) (k : String)
    (h : ∀ e ∈ entries, m ≤ f e.2) : selFold f entries m k = k := by
  induction entries generalizing m k with
  | nil => rfl
  | cons e rest ih =>
    have hm : ¬ f e.2 < m := Nat.not_lt.mpr (h e (List.mem_cons_self e rest))
    simp only [selFold, if_neg hm]
    exact ih m k (fun d hd => h d (List.mem_cons_of_mem e hd))

theorem selFold_mem (f : Entry → Nat) (entries : Table) (m : Nat) (k : String)
    (h : ∃ e ∈ entries, f e.2 < m) :
    ∃ p ∈ entries, selFold f entries m k = p.1 ∧ f p.2 < m ∧
      ∀ e ∈ entries, f p.2 ≤ f e.2 := by
  induction entries generalizing m k with
  | nil => simp at h
  | cons e rest ih =>
    by_cases he : f e.2 < m
    · simp only [selFold, if_pos he]
      by_cases hrest : ∃ d ∈ rest, f d.2 < f e.2
      · obtain ⟨p, hp, hfold, hlt, hle⟩ := ih (f e.2) e.1 hrest
        refine ⟨p, List.mem_cons_of_mem e hp, hfold, lt_trans hlt he, ?_⟩
        intro d hd
        rcases List.mem_cons.mp hd with hde | hdr
        · exact hde ▸ le_of_lt hlt
        · exact hle d hdr
      · push_neg at hrest
        refine ⟨e, List.mem_cons_self e rest, selFold_of_ge f rest (f e.2) e.1 hrest, he, ?_⟩
        intro d hd
        rcases List.mem_cons.mp hd with hde | hdr
        · exact hde ▸ le_refl _
        · exact hrest d hdr
    · simp only [selFold, if_neg he]
      have hrest : ∃ d ∈ rest, f d.2 < m := by
        obtain ⟨d, hd, hdm⟩ := h
        rcases List.mem_cons.mp hd with hde | hdr
        · exact absurd (hde ▸ hdm) he
        · exact ⟨d, hdr, hdm⟩
      obtain ⟨p, hp, hfold, hlt, hle⟩ := ih m k hrest
      refine ⟨p, List.mem_cons_of_mem e hp, hfold, hlt, ?_⟩
      intro d hd
      rcases List.mem_cons.mp hd with hde | hdr
      · exact hde ▸ le_trans (le_of_lt hlt) (Nat.not_lt.mp he)
      · exact hle d hdr

/-- Claim C1 as stated is false: on the one-entry table whose entry has
accessed_at = u64::MAX (resp. access_count = u64::MAX), the scan loop never
updates its sentinel and select_victim returns the empty string, which is
not a key of the table. -/
theorem select_victim_not_mem_counterexample :
    LeastRecentlyUsed.select_victim [("a", ⟨"v", u64MAX, 1⟩)] = Except.ok "" ∧
    LeastFrequentlyUsed.select_victim [("a", ⟨"v", 1, u64MAX⟩)] = Except.ok "" ∧
    "" ∉ ([("a", (⟨"v", u64MAX, 1⟩ : Entry))].map Prod.fst) := by
  exact ⟨by decide, by decide, by decide⟩

/-- Claim C1 (amended): on a non-empty entry table that contains at least one
entry with accessed_at < u64::MAX, LRU's select_victim returns a key present
in the table; on a non-empty entry table that contains at least one entry
with access_count < u64::MAX, LFU's select_victim returns a key present in
the table. The two halves quantify separately over their own tables. -/
theorem select_victim_mem (entries : Table) :
    ((∃ e ∈ entries, e.2.accessed_at < u64MAX) →
      ∃ p ∈ entries, LeastRecentlyUsed.select_victim entries = Except.ok p.1) ∧
    ((∃ e ∈ entries, e.2.access_count < u64MAX) →
      ∃ p ∈ entries, LeastFrequentlyUsed.select_victim entries = Except.ok p.1) := by
  constructor
  · intro h1
    have hne : entries.length ≠ 0 := by
      obtain ⟨e0, he0, -⟩ := h1
      intro hlen
      rw [List.length_eq_zero] at hlen
      subst hlen
      simp at he0
    obtain ⟨p, hp, hfold, -, -⟩ := selFold_mem (fun e => e.accessed_at) entries u64MAX "" h1
    exact ⟨p, hp, by rw [LeastRecentlyUsed.select_victim, if_neg hne, hfold]⟩
  · intro h2
    have hne : entries.length ≠ 0 := by
      obtain ⟨e0, he0, -⟩ := h2
      intro hlen
      rw [List.length_eq_zero] at hlen
      subst hlen
      simp at he0
    obtain ⟨p, hp, hfold, -, -⟩ := selFold_mem (fun e => e.access_count) entries u64MAX "" h2
    exact ⟨p, hp, by rw [LeastFrequentlyUsed.select_victim, if_neg hne, hfold]⟩

/-- Witness for the amended C1, exercising each half on a table the other
half's hypothesis does not cover: the LRU half on a table whose only entry
has access_count = u64::MAX, the LFU half on a table whose entries all have
accessed_at = u64::MAX. -/
theorem select_victim_mem_witness :
    (∃ p ∈ [("a", (⟨"v", 0, u64MAX⟩ : Entry))],
      LeastRecentlyUsed.select_victim [("a", ⟨"v", 0, u64MAX⟩)] = Except.ok p.1) ∧
    (∃ p ∈ [("a", (⟨"v", u64MAX, 2⟩ : Entry)), ("b", ⟨"w", u64MAX, 7⟩)],
      LeastFrequentlyUsed.select_victim [("a", ⟨"v", u64MAX, 2⟩), ("b", ⟨"w", u64MAX, 7⟩)] =
        Except.ok p.1) :=
  ⟨(select_victim_mem [("a", ⟨"v", 0, u64MAX⟩)]).1 (by decide),
   (select_victim_mem [("a", ⟨"v", u64MAX, 2⟩), ("b", ⟨"w", u64MAX, 7⟩)]).2 (by decide)⟩

/-- Claim C7 as stated is false: in the one-entry table whose entry has both
fields equal to u64::MAX, the minimum is attained by exactly one entry, yet
both policies return the empty string instead of that entry's key. -/
theorem select_victim_unique_min_counterexample :
    (∀ e ∈ [("a", (⟨"v", u64MAX, u64MAX⟩ : Entry))],
      e ≠ ("a", (⟨"v", u64MAX, u64MAX⟩ : Entry)) →
        (⟨"v", u64MAX, u64MAX⟩ : Entry).accessed_at < e.2.accessed_at) ∧
    LeastRecentlyUsed.select_victim [("a", ⟨"v", u64MAX, u64MAX⟩)] ≠ Except.ok "a" ∧
    LeastFrequentlyUsed.select_victim [("a", ⟨"v", u64MAX, u64MAX⟩)] ≠ Except.ok "a" := by
  exact ⟨by decide, by decide, by decide⟩

/-- Claim C7 (amended): on any non-empty table whose minimum accessed_at is
attained by exactly one entry and lies below u64::MAX, LRU returns that
entry's key; on any non-empty table whose minimum access_count is attained
by exactly one entry and lies below u64::MAX, LFU returns that entry's key.
The two halves quantify separately over their own tables. -/
theorem select_victim_unique_min (entries : Table) :
    (∀ a ∈ entries,
      (∀ e ∈ entries, e ≠ a → a.2.accessed_at < e.2.accessed_at) →
      a.2.accessed_at < u64MAX →
      LeastRecentlyUsed.select_victim entries = Except.ok a.1) ∧
    (∀ b ∈ entries,
      (∀ e ∈ entries, e ≠ b → b.2.access_count < e.2.access_count) →
      b.2.access_count < u64MAX →
      LeastFrequentlyUsed.select_victim entries = Except.ok b.1) := by
  constructor
  · intro a ha haUniq haMAX
    have hne : entries.length ≠ 0 := by
      intro hlen
      rw [List.length_eq_zero] at hlen
      subst hlen
      simp at ha
    obtain ⟨p, hp, hfold, -, hle⟩ :=
      selFold_mem (fun e => e.accessed_at) entries u64MAX "" ⟨a, ha, haMAX⟩
    have hpa : p = a := by
      by_contra hpa
      exact absurd (hle a ha) (Nat.not_le.mpr (haUniq p hp hpa))
    rw [LeastRecentlyUsed.select_victim, if_neg hne, hfold, hpa]
  · intro b hb hbUniq hbMAX
    have hne : entries.length ≠ 0 := by
      intro hlen
      rw [List.length_eq_zero] at hlen
      subst hlen
      simp at hb
    obtain ⟨p, hp, hfold, -, hle⟩ :=
      selFold_mem (fun e => e.access_count) entries u64MAX "" ⟨b, hb, hbMAX⟩
    have hpb : p = b := by
      by_contra hpb
      exact absurd (hle b hb) (Nat.not_le.mpr (hbUniq p hp hpb))
    rw [LeastFrequentlyUsed.select_victim, if_neg hne, hfold, hpb]

/-- Witness for the amended C7, exercising each half on a table the other
half's hypotheses do not cover: the LRU half on a table with a unique
minimum accessed_at but tied access_counts, the LFU half on a table with
tied accessed_at values but a unique minimum access_count. -/
theorem select_victim_unique_min_witness :
    LeastRecentlyUsed.select_victim [("a", ⟨"v", 1, 5⟩), ("b", ⟨"w", 2, 5⟩)] =
      Except.ok "a" ∧
    LeastFrequentlyUsed.select_victim [("a", ⟨"v", 5, 1⟩), ("b", ⟨"w", 5, 2⟩)] =
      Except.ok "a" :=
  ⟨(select_victim_unique_min [("a", ⟨"v", 1, 5⟩), ("b", ⟨"w", 2, 5⟩)]).1
     ("a", ⟨"v", 1, 5⟩) (by decide) (by decide) (by decide),
   (select_victim_unique_min [("a", ⟨"v", 5, 1⟩), ("b", ⟨"w", 5, 2⟩)]).2
     ("a", ⟨"v", 5, 1⟩) (by decide) (by decide) (by decide)⟩

/-!
DQN policy (model.rs lines 64-109). The ONNX inference itself is an
external artifact; the embedding takes the model's output score vector as
input and models the selection loop that follows inference. Finite IEEE 754
single-precision scores are order-embedded exactly into Int by scaling with
2^149 (every finite f32 is an integer multiple of 2^-149); under this
embedding f32::MAX = 2^128 - 2^104 maps to 2^277 - 2^253. The selection
loop only compares scores, so the embedding preserves its behaviour on all
finite score vectors.
-/

/-- The scaled image of f32::MAX, the sentinel initial minimum score. -/
def f32MAX : Int := Int.ofNat (2 ^ 277 - 2 ^ 253)

/-- The post-inference selection loop of DeepQNetwork::select_victim:
index i, running minimum score ms (initially f32::MAX), running minimum
index mi (initially 0), update on strict less-than. -/
def dqnFold : List Int → Nat → Int → Nat → Nat
  | [], _, _, mi => mi
  | s :: rest, i, ms, mi =>
    if s < ms then dqnFold rest (i + 1) s i else dqnFold rest (i + 1) ms mi

/-- DeepQNetwork::select_victim (model.rs lines 65-109): keys are pushed in
iteration order, scores is the model output vector, and the selected victim
is keys[minimum_index]. -/
def DeepQNetwork.select_victim (entries : Table) (scores : List Int) : Except String String :=
  if entries.length = 0 then Except.error "entries length must be greater than 0"
  else Except.ok ((entries.map Prod.fst).getD (dqnFold scores 0 f32MAX 0) "")

theorem getD_mem {α : Type} (l : List α) (j : Nat) (d : α) (h : j < l.length) :
    l.getD j d ∈ l := by
  induction l generalizing j with
  | nil => simp at h
  | cons x xs ih =>
    cases j with
    | zero => simp
    | succ j =>
      simp only [List.getD_cons_succ]
      exact List.mem_cons_of_mem x (ih j (Nat.lt_of_succ_lt_succ h))

theorem dqnFold_of_ge (scores : List Int) (i : Nat) (ms : Int) (mi : Nat)
    (h : ∀ s ∈ scores, ms ≤ s) : dqnFold scores i ms mi = mi := by
  induction scores generalizing i with
  | nil => rfl
  | cons s rest ih =>
    have hs : ¬ s < ms := not_lt.mpr (h s (List.mem_cons_self s rest))
    simp only [dqnFold, if_neg hs]
    exact ih (i + 1) (fun d hd => h d (List.mem_cons_of_mem s hd))

theorem dqnFold_argmin (scores : List Int) (i : Nat) (ms : Int) (mi : Nat)
    (h : ∃ s ∈ scores, s < ms) :
    ∃ j, j < scores.length ∧ dqnFold scores i ms mi = i + j ∧
      scores.getD j 0 < ms ∧
      (∀ k, k < scores.length → scores.getD j 0 ≤ scores.getD k 0) ∧
      (∀ k, k < j → scores.getD j 0 < scores.getD k 0) := by
  induction scores generalizing i ms mi with
  | nil => simp at h
  | cons s rest ih =>
    by_cases hs : s < ms
    · simp only [dqnFold, if_pos hs]
      by_cases hrest : ∃ t ∈ rest, t < s
      · obtain ⟨j, hj, hfold, hlt, hle, hfirst⟩ := ih (i + 1) s i hrest
        refine ⟨j + 1, by simpa using Nat.succ_lt_succ hj, ?_, ?_, ?_, ?_⟩
        · rw [hfold]; omega
        · simpa using lt_trans hlt hs
        · intro k hk
          cases k with
          | zero => simpa using le_of_lt hlt
          | succ k =>
            simp only [List.getD_cons_succ]
            exact hle k (Nat.lt_of_succ_lt_succ (by simpa using hk))
        · intro k hk
          cases k with
          | zero => simpa using hlt
          | succ k =>
            simp only [List.getD_cons_succ]
            exact hfirst k (Nat.lt_of_succ_lt_succ hk)
      · push_neg at hrest
        refine ⟨0, by simp, ?_, by simpa using hs, ?_, by omega⟩
        · rw [dqnFold_of_ge rest (i + 1) s i (fun t ht => hrest t ht)]
          omega
        · intro k hk
          cases k with
          | zero => simp
          | succ k =>
            simp only [List.getD_cons_zero, List.getD_cons_succ]
            exact hrest _ (getD_mem rest k 0 (Nat.lt_of_succ_lt_succ (by simpa using hk)))
    · simp only [dqnFold, if_neg hs]
      have hrest : ∃ t ∈ rest, t < ms := by
        obtain ⟨t, ht, htm⟩ := h
        rcases List.mem_cons.mp ht with hts | htr
        · exact absurd (hts ▸ htm) hs
        · exact ⟨t, htr, htm⟩
      obtain ⟨j, hj, hfold, hlt, hle, hfirst⟩ := ih (i + 1) ms mi hrest
      refine ⟨j + 1, by simpa using Nat.succ_lt_succ hj, ?_, ?_, ?_, ?_⟩
      · rw [hfold]; omega
      · simpa using hlt
      · intro k hk
        cases k with
        | zero =>
          simp only [List.getD_cons_succ, List.getD_cons_zero]
          exact le_trans (le_of_lt hlt) (not_lt.mp hs)
        | succ k =>
          simp only [List.getD_cons_succ]
          exact hle k (Nat.lt_of_succ_lt_succ (by simpa using hk))
      · intro k hk
        cases k with
        | zero =>
          simp only [List.getD_cons_succ, List.getD_cons_zero]
          exact lt_of_lt_of_le hlt (not_lt.mp hs)
        | succ k =>
          simp only [List.getD_cons_succ]
          exact hfirst k (Nat.lt_of_succ_lt_succ hk)

/-- Claim C6: for a non-empty entry table and a finite score vector of
matching length, DQN selects the key at the first index attaining the
minimum score (strict less-than scan, earlier strictly smaller). -/
theorem dqn_select_victim_first_argmin (entries : Table) (scores : List Int)
    (hlen : scores.length = entries.length) (hne : entries ≠ [])
    (hfin : ∀ s ∈ scores, s ≤ f32MAX) :
    ∃ j, j < scores.length ∧
      (∀ k, k < scores.length → scores.getD j 0 ≤ scores.getD k 0) ∧
      (∀ k, k < j → scores.getD j 0 < scores.getD k 0) ∧
      DeepQNetwork.select_victim entries scores =
        Except.ok ((entries.map Prod.fst).getD j "") := by
  have hne0 : entries.length ≠ 0 := fun hc => hne (List.length_eq_zero.mp hc)
  by_cases hlt : ∃ s ∈ scores, s < f32MAX
  · obtain ⟨j, hj, hfold, -, hle, hfirst⟩ := dqnFold_argmin scores 0 f32MAX 0 hlt
    refine ⟨j, hj, hle, hfirst, ?_⟩
    rw [DeepQNetwork.select_victim, if_neg hne0, hfold]
    simp
  · push_neg at hlt
    have hall : ∀ s ∈ scores, s = f32MAX := fun s hs => le_antisymm (hfin s hs) (hlt s hs)
    have hfold : dqnFold scores 0 f32MAX 0 = 0 :=
      dqnFold_of_ge scores 0 f32MAX 0 (fun s hs => (hall s hs).ge)
    have hslen : scores.length ≠ 0 := by rw [hlen]; exact hne0
    refine ⟨0, Nat.pos_of_ne_zero hslen, ?_, by omega, ?_⟩
    · intro k hk
      rw [hall _ (getD_mem scores 0 0 (Nat.pos_of_ne_zero hslen)),
        hall _ (getD_mem scores k 0 hk)]
    · rw [DeepQNetwork.select_victim, if_neg hne0, hfold]

set_option maxRecDepth 10000 in
set_option exponentiation.threshold 300 in
/-- Witness for C6 at the spec's concrete score vector [5, 1, 1, 3]: the
victim is the key at index 1. -/
theorem dqn_select_victim_first_argmin_witness :
    (∃ j, j < ([5, 1, 1, 3] : List Int).length ∧
      (∀ k, k < ([5, 1, 1, 3] : List Int).length →
        ([5, 1, 1, 3] : List Int).getD j 0 ≤ ([5, 1, 1, 3] : List Int).getD k 0) ∧
      (∀ k, k < j → ([5, 1, 1, 3] : List Int).getD j 0 < ([5, 1, 1, 3] : List Int).getD k 0) ∧
      DeepQNetwork.select_victim
        [("a", ⟨"", 0, 1⟩), ("b", ⟨"", 0, 1⟩), ("c", ⟨"", 0, 1⟩), ("d", ⟨"", 0, 1⟩)]
        [5, 1, 1, 3] =
        Except.ok (([("a", (⟨"", 0, 1⟩ : Entry)), ("b", ⟨"", 0, 1⟩), ("c", ⟨"", 0, 1⟩),
          ("d", ⟨"", 0, 1⟩)].map Prod.fst).getD j "")) ∧
    DeepQNetwork.select_victim
      [("a", ⟨"", 0, 1⟩), ("b", ⟨"", 0, 1⟩), ("c", ⟨"", 0, 1⟩), ("d", ⟨"", 0, 1⟩)]
      [5, 1, 1, 3] = Except.ok "b" :=
  ⟨dqn_select_victim_first_argmin
    [("a", ⟨"", 0, 1⟩), ("b", ⟨"", 0, 1⟩), ("c", ⟨"", 0, 1⟩), ("d", ⟨"", 0, 1⟩)]
    [5, 1, 1, 3] (by decide) (by decide) (by decide),
   by decide⟩

/-!
The cache (cache.rs). The HashMap operations get_mut / insert / remove are
modelled on the association list: lookupEntry finds the first binding,
updateEntry rewrites it in place, eraseKey removes it; insertion of an
absent key appends. access_count arithmetic wraps modulo 2^64.
-/

/-- HashMap::get on the association-list table (first binding for the key). -/
def lookupEntry : Table → String → Option Entry
  | [], _ => none
  | e :: rest, key => if e.1 = key then some e.2 else lookupEntry rest key

/-- HashMap::get_mut followed by in-place mutation: rewrite the first
binding of the key with f. -/
def updateEntry (f : Entry → Entry) : Table → String → Table
  | [], _ => []
  | e :: rest, key => if e.1 = key then (e.1, f e.2) :: rest else e :: updateEntry f rest key

/-- HashMap::remove: drop the first binding of the key, if any. -/
def eraseKey : Table → String → Table
  | [], _ => []
  | e :: rest, key => if e.1 = key then rest else e :: eraseKey rest key

/-- The bounded cache (cache.rs, struct Cache); the eviction model is passed
as a parameter of type Policy to the operations that use it. -/
structure Cache where
  entries : Table
  capacity : Nat
deriving DecidableEq, Repr

/-- The Evictor capability: select_victim over the entry table. -/
abbrev Policy := Table → Except String String

/-- Cache::set (cache.rs lines 63-95): on a present key overwrite value and
accessed_at and accumulate access_count; on an absent key insert, evicting
the policy's victim first when the table is full (the removal is a no-op if
the victim key is absent). -/
def Cache.set (policy : Policy) (c : Cache) (key : String) (entry : Entry) :
    Except String Cache :=
  match lookupEntry c.entries key with
  | some _ =>
    Except.ok ⟨updateEntry (fun old => ⟨entry.value, entry.accessed_at,
      (old.access_count + entry.access_count) % u64MOD⟩) c.entries key, c.capacity⟩
  | none =>
    if c.entries.length = c.capacity then
      match policy c.entries with
      | Except.error msg => Except.error msg
      | Except.ok victim =>
        Except.ok ⟨eraseKey c.entries victim ++ [(key, entry)], c.capacity⟩
    else
      Except.ok ⟨c.entries ++ [(key, entry)], c.capacity⟩

/-- Cache::get (cache.rs lines 97-116): on a hit, increment access_count,
refresh accessed_at to the current time (the parameter now stands for
unix_epoch()), and return the value; on a miss return None. -/
def Cache.get (c : Cache) (key : String) (now : Nat) : Option String × Cache :=
  match lookupEntry c.entries key with
  | some entry =>
    (some entry.value,
     ⟨updateEntry (fun old => ⟨old.value, now, (old.access_count + 1) % u64MOD⟩)
       c.entries key, c.capacity⟩)
  | none => (none, c)

/-- Cache::remove (cache.rs lines 118-128): remove if present, report prior
presence. -/
def Cache.remove (c : Cache) (key : String) : Bool × Cache :=
  match lookupEntry c.entries key with
  | some _ => (true, ⟨eraseKey c.entries key, c.capacity⟩)
  | none => (false, c)

theorem lookupEntry_isSome_of_mem (l : Table) (p : String × Entry) (h : p ∈ l) :
    (lookupEntry l p.1).isSome := by
  induction l with
  | nil => simp at h
  | cons e rest ih =>
    by_cases he : e.1 = p.1
    · simp [lookupEntry, he]
    · rcases List.mem_cons.mp h with hpe | hpr
      · exact absurd (hpe ▸ rfl) he
      · simpa [lookupEntry, he] using ih hpr

theorem eraseKey_length (l : Table) (k : String) (h : (lookupEntry l k).isSome) :
    (eraseKey l k).length + 1 = l.length := by
  induction l with
  | nil => simp [lookupEntry] at h
  | cons e rest ih =>
    by_cases he : e.1 = k
    · simp [eraseKey, he]
    · simp only [lookupEntry, if_neg he] at h
      simp [eraseKey, he, ih h]

theorem eraseKey_length_le (l : Table) (k : String) :
    (eraseKey l k).length ≤ l.length := by
  induction l with
  | nil => simp [eraseKey]
  | cons e rest ih =>
    by_cases he : e.1 = k
    · simp [eraseKey, he]
    · simp only [eraseKey, if_neg he, List.length_cons]
      omega

theorem eraseKey_subset (l : Table) (k : String) (e : String × Entry)
    (h : e ∈ eraseKey l k) : e ∈ l := by
  induction l with
  | nil => simp [eraseKey] at h
  | cons d rest ih =>
    by_cases hd : d.1 = k
    · simp only [eraseKey, if_pos hd] at h
      exact List.mem_cons_of_mem d h
    · simp only [eraseKey, if_neg hd] at h
      rcases List.mem_cons.mp h with hed | her
      · exact hed ▸ List.mem_cons_self d rest
      · exact List.mem_cons_of_mem d (ih her)

theorem updateEntry_length (f : Entry → Entry) (l : Table) (k : String) :
    (updateEntry f l k).length = l.length := by
  induction l with
  | nil => rfl
  | cons e rest ih =>
    by_cases he : e.1 = k
    · simp [updateEntry, he]
    · simp [updateEntry, he, ih]

theorem updateEntry_mem (f : Entry → Entry) (l : Table) (k : String)
    (e : String × Entry) (h : e ∈ updateEntry f l k) :
    e ∈ l ∨ ∃ d ∈ l, e = (d.1, f d.2) := by
  induction l with
  | nil => simp [updateEntry] at h
  | cons x rest ih =>
    by_cases hx : x.1 = k
    · simp only [updateEntry, if_pos hx] at h
      rcases List.mem_cons.mp h with hex | her
      · exact Or.inr ⟨x, List.mem_cons_self x rest, hex⟩
      · exact Or.inl (List.mem_cons_of_mem x her)
    · simp only [updateEntry, if_neg hx] at h
      rcases List.mem_cons.mp h with hex | her
      · exact Or.inl (hex ▸ List.mem_cons_self x rest)
      · rcases ih her with hl | ⟨d, hd, hde⟩
        · exact Or.inl (List.mem_cons_of_mem x hl)
        · exact Or.inr ⟨d, List.mem_cons_of_mem x hd, hde⟩

theorem lookupEntry_updateEntry_self (f : Entry → Entry) (l : Table) (k : String)
    (e : Entry) (h : lookupEntry l k = some e) :
    lookupEntry (updateEntry f l k) k = some (f e) := by
  induction l with
  | nil => simp [lookupEntry] at h
  | cons x rest ih =>
    by_cases hx : x.1 = k
    · simp only [lookupEntry, if_pos hx, Option.some.injEq] at h
      simp [updateEntry, lookupEntry, hx, h]
    · simp only [lookupEntry, if_neg hx] at h
      simp [updateEntry, lookupEntry, hx, ih h]

theorem lookupEntry_updateEntry_isSome (f : Entry → Entry) (l : Table) (k k2 : String) :
    (lookupEntry (updateEntry f l k) k2).isSome = (lookupEntry l k2).isSome := by
  induction l with
  | nil => rfl
  | cons x rest ih =>
    by_cases hx : x.1 = k
    · subst hx
      by_cases hk : x.1 = k2
      · simp [updateEntry, lookupEntry, hk]
      · simp [updateEntry, lookupEntry, hk]
    · by_cases hk : x.1 = k2
      · subst hk
        simp [updateEntry, lookupEntry, hx]
      · simp [updateEntry, lookupEntry, hx, hk, ih]

theorem lookupEntry_append_single (l : Table) (k : String) (e : Entry)
    (h : lookupEntry l k = none) : lookupEntry (l ++ [(k, e)]) k = some e := by
  induction l with
  | nil => simp [lookupEntry]
  | cons x rest ih =>
    by_cases hx : x.1 = k
    · simp [lookupEntry, hx] at h
    · simp only [lookupEntry, if_neg hx] at h
      simpa [lookupEntry, hx] using ih h

theorem lookupEntry_eraseKey_none (l : Table) (k k2 : String)
    (h : lookupEntry l k = none) : lookupEntry (eraseKey l k2) k = none := by
  induction l with
  | nil => rfl
  | cons x rest ih =>
    by_cases hx : x.1 = k
    · simp [lookupEntry, hx] at h
    · simp only [lookupEntry, if_neg hx] at h
      by_cases hx2 : x.1 = k2
      · simpa [eraseKey, hx2] using h
      · simpa [eraseKey, lookupEntry, hx2, hx] using ih h

/-- Claim C8 as stated is false at access_count = u64::MAX: get wraps the
counter to 0 instead of incrementing it by one. -/
theorem cache_get_wrap_counterexample :
    (Cache.get ⟨[("a", ⟨"v", 0, u64MAX⟩)], 1⟩ "a" 5).1 = some "v" ∧
    lookupEntry (Cache.get ⟨[("a", ⟨"v", 0, u64MAX⟩)], 1⟩ "a" 5).2.entries "a" =
      some ⟨"v", 5, 0⟩ ∧
    (0 : Nat) ≠ u64MAX + 1 := by
  exact ⟨by decide, by decide, by decide⟩

/-- Claim C8 (amended): on a hit, get returns the stored value, sets
accessed_at to the current time and the counter to
(access_count + 1) mod 2^64 — an increment by exactly one whenever the
prior counter is below u64::MAX — and neither inserts nor removes entries;
on a miss it returns None and leaves the cache untouched. -/
theorem cache_get_spec (c : Cache) (key : String) (now : Nat) :
    (∀ e, lookupEntry c.entries key = some e →
      (Cache.get c key now).1 = some e.value ∧
      lookupEntry (Cache.get c key now).2.entries key =
        some ⟨e.value, now, (e.access_count + 1) % u64MOD⟩ ∧
      (e.access_count < u64MAX → (e.access_count + 1) % u64MOD = e.access_count + 1) ∧
      (Cache.get c key now).2.entries.length = c.entries.length ∧
      (∀ k2, (lookupEntry (Cache.get c key now).2.entries k2).isSome =
        (lookupEntry c.entries k2).isSome) ∧
      (Cache.get c key now).2.capacity = c.capacity) ∧
    (lookupEntry c.entries key = none → Cache.get c key now = (none, c)) := by
  constructor
  · intro e he
    have hget : Cache.get c key now = (some e.value,
        ⟨updateEntry (fun old => ⟨old.value, now, (old.access_count + 1) % u64MOD⟩)
          c.entries key, c.capacity⟩) := by
      unfold Cache.get
      rw [he]
    rw [hget]
    refine ⟨rfl, ?_, ?_, ?_, ?_, rfl⟩
    · exact lookupEntry_updateEntry_self _ c.entries key e he
    · intro hlt
      have h1 : e.access_count + 1 < u64MOD := by
        unfold u64MAX at hlt
        unfold u64MOD
        omega
      exact Nat.mod_eq_of_lt h1
    · exact updateEntry_length _ c.entries key
    · intro k2
      exact lookupEntry_updateEntry_isSome _ c.entries key k2
  · intro he
    unfold Cache.get
    rw [he]

/-- Witness for the amended C8 at a concrete one-entry cache. -/
theorem cache_get_spec_witness :
    (Cache.get ⟨[("a", ⟨"v", 3, 2⟩)], 4⟩ "a" 7).1 = some "v" ∧
    lookupEntry (Cache.get ⟨[("a", ⟨"v", 3, 2⟩)], 4⟩ "a" 7).2.entries "a" =
      some ⟨"v", 7, (2 + 1) % u64MOD⟩ :=
  ⟨((cache_get_spec ⟨[("a", ⟨"v", 3, 2⟩)], 4⟩ "a" 7).1 ⟨"v", 3, 2⟩ (by decide)).1,
   ((cache_get_spec ⟨[("a", ⟨"v", 3, 2⟩)], 4⟩ "a" 7).1 ⟨"v", 3, 2⟩ (by decide)).2.1⟩

/-!
Operation sequences over the cache (claim C2). An Op is one call of the
public cache API; get's clock value is carried in the operation.
-/

/-- One cache operation. -/
inductive Op where
  | set (key : String) (entry : Entry)
  | get (key : String) (now : Nat)
  | remove (key : String)
deriving DecidableEq, Repr

/-- Apply one operation (the result of get / remove is dropped; only the
state matters for the invariant). -/
def Cache.step (policy : Policy) (c : Cache) : Op → Except String Cache
  | Op.set key entry => Cache.set policy c key entry
  | Op.get key now => Except.ok (Cache.get c key now).2
  | Op.remove key => Except.ok (Cache.remove c key).2

/-- Run a sequence of operations from a starting state. -/
def Cache.run (policy : Policy) (c : Cache) : List Op → Except String Cache
  | [] => Except.ok c
  | op :: ops =>
    match Cache.step policy c op with
    | Except.error msg => Except.error msg
    | Except.ok c2 => Cache.run policy c2 ops

/-- The side condition forced by the u64::MAX sentinel of the LRU scan:
every accessed_at written into the table stays below u64::MAX. -/
def opBounded : Op → Prop
  | Op.set _ entry => entry.accessed_at < u64MAX
  | Op.get _ now => now < u64MAX
  | Op.remove _ => True

instance : DecidablePred opBounded
  | Op.set _ entry => inferInstanceAs (Decidable (entry.accessed_at < u64MAX))
  | Op.get _ now => inferInstanceAs (Decidable (now < u64MAX))
  | Op.remove _ => inferInstanceAs (Decidable True)

/-- The inductive invariant for C2: fixed capacity, size bounded by it, and
all stored accessed_at values below the u64::MAX sentinel. -/
def CacheInv (cap : Nat) (c : Cache) : Prop :=
  c.capacity = cap ∧ c.entries.length ≤ cap ∧
  ∀ e ∈ c.entries, e.2.accessed_at < u64MAX

theorem lru_select_victim_full (c : Cache)
    (hne : c.entries ≠ [])
    (hbound : ∀ e ∈ c.entries, e.2.accessed_at < u64MAX) :
    ∃ p ∈ c.entries, LeastRecentlyUsed.select_victim c.entries = Except.ok p.1 := by
  have hne0 : c.entries.length ≠ 0 := fun hc => hne (List.length_eq_zero.mp hc)
  obtain ⟨e0, he0⟩ := List.exists_mem_of_ne_nil c.entries hne
  obtain ⟨p, hp, hfold, -, -⟩ := selFold_mem (fun e => e.accessed_at) c.entries u64MAX ""
    ⟨e0, he0, hbound e0 he0⟩
  exact ⟨p, hp, by rw [LeastRecentlyUsed.select_victim, if_neg hne0, hfold]⟩

theorem set_full_absent_len (c : Cache) (key : String) (entry : Entry) (c2 : Cache)
    (hfull : c.entries.length = c.capacity)
    (habsent : lookupEntry c.entries key = none)
    (hbound : ∀ e ∈ c.entries, e.2.accessed_at < u64MAX)
    (hset : Cache.set LeastRecentlyUsed.select_victim c key entry = Except.ok c2) :
    c2.entries.length = c.capacity ∧
    ∃ victim, LeastRecentlyUsed.select_victim c.entries = Except.ok victim ∧
      c2.entries = eraseKey c.entries victim ++ [(key, entry)] := by
  rw [Cache.set, habsent, if_pos hfull] at hset
  rcases hvic : LeastRecentlyUsed.select_victim c.entries with msg | victim
  · rw [hvic] at hset; cases hset
  · rw [hvic] at hset
    cases hset
    have hne2 : c.entries ≠ [] := by
      intro hc
      rw [hc] at hvic
      exact absurd hvic (by simp [LeastRecentlyUsed.select_victim])
    obtain ⟨p, hp, hfold⟩ := lru_select_victim_full c hne2 hbound
    have hpv : victim = p.1 := by
      rw [hfold] at hvic
      exact ((Except.ok.injEq _ _).mp hvic).symm
    refine ⟨?_, victim, rfl, rfl⟩
    have hsome : (lookupEntry c.entries victim).isSome :=
      hpv ▸ lookupEntry_isSome_of_mem _ p hp
    have hlen := eraseKey_length c.entries victim hsome
    simp only [List.length_append, List.length_cons, List.length_nil]
    omega

theorem set_inv (cap : Nat) (c : Cache) (key : String) (entry : Entry) (c2 : Cache)
    (hinv : CacheInv cap c) (hb : entry.accessed_at < u64MAX)
    (hset : Cache.set LeastRecentlyUsed.select_victim c key entry = Except.ok c2) :
    CacheInv cap c2 := by
  obtain ⟨hcap, hlen, hbound⟩ := hinv
  rcases hlook : lookupEntry c.entries key with _ | e
  · by_cases hfull : c.entries.length = c.capacity
    · rw [Cache.set, hlook, if_pos hfull] at hset
      rcases hvic : LeastRecentlyUsed.select_victim c.entries with msg | victim
      · rw [hvic] at hset; cases hset
      · rw [hvic] at hset
        cases hset
        have hne2 : c.entries ≠ [] := by
          intro hc
          rw [hc] at hvic
          exact absurd hvic (by simp [LeastRecentlyUsed.select_victim])
        obtain ⟨p, hp, hfold⟩ := lru_select_victim_full c hne2 hbound
        have hpv : victim = p.1 := by
          rw [hfold] at hvic
          exact ((Except.ok.injEq _ _).mp hvic).symm
        have hsome : (lookupEntry c.entries victim).isSome :=
          hpv ▸ lookupEntry_isSome_of_mem _ p hp
        have hlen2 := eraseKey_length c.entries victim hsome
        refine ⟨hcap, ?_, ?_⟩
        · simp only [List.length_append, List.length_cons, List.length_nil]
          omega
        · intro e he
          rcases List.mem_append.mp he with her | hee
          · exact hbound e (eraseKey_subset _ _ e her)
          · rcases List.mem_singleton.mp hee with rfl
            exact hb
    · rw [Cache.set, hlook, if_neg hfull] at hset
      cases hset
      refine ⟨hcap, ?_, ?_⟩
      · simp only [List.length_append, List.length_cons, List.length_nil]
        omega
      · intro e he
        rcases List.mem_append.mp he with her | hee
        · exact hbound e her
        · rcases List.mem_singleton.mp hee with rfl
          exact hb
  · rw [Cache.set, hlook] at hset
    cases hset
    refine ⟨hcap, ?_, ?_⟩
    · rw [updateEntry_length]
      exact hlen
    · intro e he
      rcases updateEntry_mem _ c.entries key e he with hel | ⟨d, hd, rfl⟩
      · exact hbound e hel
      · exact hb

theorem step_inv (cap : Nat) (c : Cache) (op : Op) (c2 : Cache)
    (hinv : CacheInv cap c) (hb : opBounded op)
    (hstep : Cache.step LeastRecentlyUsed.select_victim c op = Except.ok c2) :
    CacheInv cap c2 := by
  obtain ⟨hcap, hlen, hbound⟩ := hinv
  cases op with
  | set key entry => exact set_inv cap c key entry c2 ⟨hcap, hlen, hbound⟩ hb hstep
  | get key now =>
    simp only [Cache.step] at hstep
    cases hstep
    rcases hlook : lookupEntry c.entries key with _ | e
    · simp only [Cache.get, hlook]
      exact ⟨hcap, hlen, hbound⟩
    · simp only [Cache.get, hlook]
      refine ⟨hcap, ?_, ?_⟩
      · rw [updateEntry_length]; exact hlen
      · intro d hd
        rcases updateEntry_mem _ c.entries key d hd with hdl | ⟨x, hx, rfl⟩
        · exact hbound d hdl
        · exact hb
  | remove key =>
    simp only [Cache.step] at hstep
    cases hstep
    rcases hlook : lookupEntry c.entries key with _ | e
    · simp only [Cache.remove, hlook]
      exact ⟨hcap, hlen, hbound⟩
    · simp only [Cache.remove, hlook]
      refine ⟨hcap, le_trans (eraseKey_length_le _ _) hlen, ?_⟩
      intro d hd
      exact hbound d (eraseKey_subset _ _ d hd)

theorem run_inv (cap : Nat) (ops : List Op) (c c2 : Cache)
    (hinv : CacheInv cap c) (hops : ∀ op ∈ ops, opBounded op)
    (hrun : Cache.run LeastRecentlyUsed.select_victim c ops = Except.ok c2) :
    CacheInv cap c2 := by
  induction ops generalizing c with
  | nil =>
    simp only [Cache.run] at hrun
    cases hrun
    exact hinv
  | cons op ops ih =>
    simp only [Cache.run] at hrun
    rcases hstep : Cache.step LeastRecentlyUsed.select_victim c op with msg | cmid
    · rw [hstep] at hrun; cases hrun
    · rw [hstep] at hrun
      exact ih cmid
        (step_inv cap c op cmid hinv (hops op (List.mem_cons_self op ops)) hstep)
        (fun d hd => hops d (List.mem_cons_of_mem op hd)) hrun

/-- Claim C2 as stated is false: with capacity 1 and the LRU policy, two
sets whose entries carry accessed_at = u64::MAX make the policy return the
empty string, the eviction removal is a silent no-op, and the table grows
to 2 entries. -/
theorem cache_capacity_counterexample :
    Cache.run LeastRecentlyUsed.select_victim ⟨[], 1⟩
      [Op.set "a" ⟨"v", u64MAX, 1⟩, Op.set "b" ⟨"w", u64MAX, 1⟩] =
      Except.ok ⟨[("a", ⟨"v", u64MAX, 1⟩), ("b", ⟨"w", u64MAX, 1⟩)], 1⟩ ∧
    ([("a", (⟨"v", u64MAX, 1⟩ : Entry)), ("b", ⟨"w", u64MAX, 1⟩)] : Table).length > 1 := by
  exact ⟨by decide, by decide⟩

/-- Claim C2 (amended): starting from an empty cache of positive capacity
and running any sequence of set/get/remove operations whose written
accessed_at values stay below u64::MAX, the LRU-policy cache never exceeds
its capacity; moreover a successful set of an absent key into a full table
with such entries leaves the size exactly at capacity (one victim removed,
one entry inserted). -/
theorem cache_capacity_invariant (capacity : Nat) (ops : List Op) (c2 : Cache)
    (_hcap : 0 < capacity)
    (hops : ∀ op ∈ ops, opBounded op)
    (hrun : Cache.run LeastRecentlyUsed.select_victim ⟨[], capacity⟩ ops = Except.ok c2) :
    c2.entries.length ≤ capacity ∧
    ∀ key entry c3, c2.entries.length = capacity →
      lookupEntry c2.entries key = none →
      Cache.set LeastRecentlyUsed.select_victim c2 key entry = Except.ok c3 →
      c3.entries.length = capacity := by
  have hinv0 : CacheInv capacity ⟨[], capacity⟩ := ⟨rfl, by simp, by simp⟩
  obtain ⟨hcap2, hlen, hbound⟩ := run_inv capacity ops ⟨[], capacity⟩ c2 hinv0 hops hrun
  refine ⟨hlen, ?_⟩
  intro key entry c3 hfull habsent hset
  have hfull2 : c2.entries.length = c2.capacity := by rw [hcap2]; exact hfull
  have := set_full_absent_len c2 key entry c3 hfull2 habsent hbound hset
  rw [this.1, hcap2]

/-- Witness for the amended C2: capacity 2, the spec's scenario 5 sequence
(set a, set b, get a, set c) evicts b under LRU and ends with a full (not
overfull) table. -/
theorem cache_capacity_invariant_witness :
    Cache.run LeastRecentlyUsed.select_victim ⟨[], 2⟩
      [Op.set "a" ⟨"1", 100, 1⟩, Op.set "b" ⟨"2", 101, 1⟩, Op.get "a" 102,
        Op.set "c" ⟨"3", 103, 1⟩] =
      Except.ok ⟨[("a", ⟨"1", 102, 2⟩), ("c", ⟨"3", 103, 1⟩)], 2⟩ ∧
    ([("a", (⟨"1", 102, 2⟩ : Entry)), ("c", ⟨"3", 103, 1⟩)] : Table).length ≤ 2 :=
  ⟨by decide,
   (cache_capacity_invariant 2
     [Op.set "a" ⟨"1", 100, 1⟩, Op.set "b" ⟨"2", 101, 1⟩, Op.get "a" 102,
       Op.set "c" ⟨"3", 103, 1⟩]
     ⟨[("a", ⟨"1", 102, 2⟩), ("c", ⟨"3", 103, 1⟩)], 2⟩
     (by decide) (by decide) (by decide)).1⟩

/-!
Wire protocol and server engine (protocol.rs). A connection's sends are
modelled as the list of Msg frames written in order; the bytes read from
the stream appear as the parsed inputs of each step. The storage engine is
not under src/ and is modelled from the spec.
-/

/-- Opcode byte constants (protocol.rs lines 52-61). -/
def OPERATION_READY : Nat := 0x80

def OPERATION_HELLO : Nat := 0x00

def OPERATION_NOP : Nat := 0x02

def OPERATION_SET : Nat := 0x03

def OPERATION_DEL : Nat := 0x04

def OPERATION_GET : Nat := 0x05

def OPERATION_OK : Nat := 0x82

def OPERATION_VALUE : Nat := 0x83

def OPERATION_ERROR : Nat := 0x84

def OPERATION_QUIT : Nat := 0xFF

/-- A frame written by the server to the client. -/
inductive Msg where
  | ready (major minor patch : Nat)
  | ok
  | value (s : String)
  | error (s : String)
  | quit
deriving DecidableEq, Repr

/-- The opcode byte that heads each server frame. -/
def msgOpcode : Msg → Nat
  | Msg.ready _ _ _ => OPERATION_READY
  | Msg.ok => OPERATION_OK
  | Msg.value _ => OPERATION_VALUE
  | Msg.error _ => OPERATION_ERROR
  | Msg.quit => OPERATION_QUIT

/-- Semantic version triple (protocol.rs, struct Version); the u8 fields
are modelled as Nat. -/
structure Version where
  major : Nat
  minor : Nat
  patch : Nat
deriving DecidableEq, Repr

/-- Version::partial_cmp (protocol.rs lines 171-185): lexicographic
major, minor, patch. -/
def Version.cmp (a b : Version) : Ordering :=
  match compare a.major b.major with
  | Ordering.eq =>
    match compare a.minor b.minor with
    | Ordering.eq => compare a.patch b.patch
    | o => o
  | o => o

/-- The strict greater-than test the handshake applies (Rust
version > ARGUMENT.version through PartialOrd). -/
def Version.gt (a b : Version) : Bool := Version.cmp a b == Ordering.gt

/-- Display for Version (protocol.rs lines 187-191): major.minor.patch. -/
def Version.toString (v : Version) : String :=
  Nat.repr v.major ++ "." ++ Nat.repr v.minor ++ "." ++ Nat.repr v.patch

/-- The handshake that follows the READY banner (protocol.rs lines
214-244). Input: the four bytes read from the client, the HELLO opcode and
the client version triple. Output: the frames the server writes afterwards
and whether the connection proceeds to the request loop (false means the
worker returns and the stream is dropped). A failed handshake sends one
ERROR frame and returns: no QUIT frame is written on this path. The
Version::try_from branch for a wrong slice length is unreachable here
because exactly three bytes are passed. -/
def handshake (serverVersion : Version) (op b1 b2 b3 : Nat) : List Msg × Bool :=
  if op ≠ OPERATION_HELLO then
    ([Msg.error "handshake must start with HELLO operation"], false)
  else if Version.gt ⟨b1, b2, b3⟩ serverVersion then
    ([Msg.error ("client version must be less than or equal to " ++
      Version.toString serverVersion)], false)
  else
    ([Msg.ok], true)

/-- Io error kinds the request loop distinguishes (protocol.rs lines
329-344); other covers the kinds reported with their own message. -/
inductive IoKind where
  | unexpectedEof
  | storageFull
  | wouldBlock
  | timedOut
  | outOfMemory
  | other (s : String)
deriving DecidableEq, Repr

/-- An error escaping the request-body closure: either an io::Error (the
downcast in the handler succeeds) or a plain string error. -/
inductive Err where
  | io (k : IoKind)
  | str (s : String)
deriving DecidableEq, Repr

/-- First binding for a key in the storage map. -/
def lookupValue : List (String × String) → String → Option String
  | [], _ => none
  | e :: rest, key => if e.1 = key then some e.2 else lookupValue rest key

/-- Modelled from the spec: the on-disk storage engine (module storage of
main.rs, not under src/). Section 6 contract: write(key, value) is ok or
StorageFull, read(key) is Some(value) or None, delete(key) reports prior
existence. isFull models the backing store being full, the condition under
which write fails with StorageFull. -/
structure Storage where
  data : List (String × String)
  isFull : Bool
deriving DecidableEq, Repr

/-- Modelled from the spec: storage write-through, failing with
StorageFull when the store is full. -/
def Storage.write (s : Storage) (key value : String) : Except Err Storage :=
  if s.isFull then Except.error (Err.io IoKind.storageFull)
  else Except.ok ⟨s.data.filter (fun e => !(e.1 == key)) ++ [(key, value)], s.isFull⟩

/-- Modelled from the spec: storage read. -/
def Storage.read (s : Storage) (key : String) : Option String :=
  lookupValue s.data key

/-- Modelled from the spec: storage delete, reporting prior existence. -/
def Storage.delete (s : Storage) (key : String) : Bool × Storage :=
  match lookupValue s.data key with
  | some _ => (true, ⟨s.data.filter (fun e => !(e.1 == key)), s.isFull⟩)
  | none => (false, s)

/-- The shared state one connection sees: the cache and the storage. -/
structure ConnState where
  cache : Cache
  storage : Storage
deriving DecidableEq, Repr

/-- The outcome of one request-loop iteration: the frames written, whether
the loop breaks (connection closes), and the state afterwards. -/
structure StepResult where
  msgs : List Msg
  closed : Bool
  state : ConnState
deriving DecidableEq, Repr

/-- The request-body closure of one loop iteration (protocol.rs lines
249-327): dispatch on the opcode byte read from the stream; key and value
are the length-prefixed strings read next, now is unix_epoch(). Returns
the state after the in-place mutations and either the frames written on
success or the error handed to the handler. -/
def requestBody (policy : Policy) (st : ConnState) (opcode : Nat)
    (key value : String) (now : Nat) : ConnState × Except Err (List Msg) :=
  if opcode = OPERATION_SET then
    match Cache.set policy st.cache key (Entry.new value now) with
    | Except.error msg => (st, Except.error (Err.str msg))
    | Except.ok cache2 =>
      match Storage.write st.storage key value with
      | Except.error e => (⟨cache2, st.storage⟩, Except.error e)
      | Except.ok storage2 => (⟨cache2, storage2⟩, Except.ok [Msg.ok])
  else if opcode = OPERATION_DEL then
    match Cache.remove st.cache key, Storage.delete st.storage key with
    | (_, cache2), (true, storage2) => (⟨cache2, storage2⟩, Except.ok [Msg.ok])
    | (_, cache2), (false, storage2) =>
      (⟨cache2, storage2⟩, Except.error (Err.str "key must exist"))
  else if opcode = OPERATION_GET then
    match Cache.get st.cache key now with
    | (some v, cache2) => (⟨cache2, st.storage⟩, Except.ok [Msg.value v])
    | (none, cache2) =>
      match Storage.read st.storage key with
      | none => (⟨cache2, st.storage⟩, Except.error (Err.str "key must exist"))
      | some v =>
        match Cache.set policy cache2 key (Entry.new v now) with
        | Except.error msg => (⟨cache2, st.storage⟩, Except.error (Err.str msg))
        | Except.ok cache3 => (⟨cache3, st.storage⟩, Except.ok [Msg.value v])
  else if opcode = OPERATION_NOP then
    (st, Except.ok [Msg.ok])
  else if opcode = OPERATION_QUIT then
    (st, Except.error (Err.str ""))
  else
    (st, Except.error (Err.str "operation must be valid"))

/-- The error arm of the request loop (protocol.rs lines 329-357): io
errors other than EOF are reported with ERROR followed by a QUIT frame and
the loop breaks; EOF breaks silently; the empty string error is the silent
QUIT path; every other string error is reported with ERROR alone and the
loop continues. -/
def handleErr : Err → List Msg × Bool
  | Err.io IoKind.unexpectedEof => ([], true)
  | Err.io IoKind.storageFull =>
    ([Msg.error "storage must have free space", Msg.quit], true)
  | Err.io IoKind.wouldBlock =>
    ([Msg.error "packet must be sent in time", Msg.quit], true)
  | Err.io IoKind.timedOut =>
    ([Msg.error "packet must be sent in time", Msg.quit], true)
  | Err.io IoKind.outOfMemory =>
    ([Msg.error "memory must have free space", Msg.quit], true)
  | Err.io (IoKind.other s) => ([Msg.error s, Msg.quit], true)
  | Err.str s => if s = "" then ([], true) else ([Msg.error s], false)

/-- One full iteration of the request loop with its error handling. -/
def loopStep (policy : Policy) (st : ConnState) (opcode : Nat)
    (key value : String) (now : Nat) : StepResult :=
  match requestBody policy st opcode key value now with
  | (st2, Except.ok msgs) => ⟨msgs, false, st2⟩
  | (st2, Except.error e) => ⟨(handleErr e).1, (handleErr e).2, st2⟩

/-- Claim C3 as stated is false: rejecting HELLO 2.0.0 on server 1.0.0
sends exactly one ERROR frame and closes the connection; no QUIT frame is
written on the handshake failure path. -/
theorem handshake_rejection_no_quit_counterexample :
    Version.gt ⟨2, 0, 0⟩ ⟨1, 0, 0⟩ = true ∧
    (handshake ⟨1, 0, 0⟩ OPERATION_HELLO 2 0 0).2 = false ∧
    Msg.quit ∉ (handshake ⟨1, 0, 0⟩ OPERATION_HELLO 2 0 0).1 := by
  exact ⟨by decide, by decide, by decide⟩

/-- Claim C3 (amended): a HELLO whose client version is strictly greater
than the server version is rejected: the server sends one ERROR frame and
closes the connection, without sending QUIT; a HELLO with version equal to
or lower than the server version is accepted. -/
theorem handshake_version_rule (sv : Version) (b1 b2 b3 : Nat) :
    (Version.gt ⟨b1, b2, b3⟩ sv = true →
      handshake sv OPERATION_HELLO b1 b2 b3 =
        ([Msg.error ("client version must be less than or equal to " ++
          Version.toString sv)], false)) ∧
    (Version.gt ⟨b1, b2, b3⟩ sv = false →
      handshake sv OPERATION_HELLO b1 b2 b3 = ([Msg.ok], true)) := by
  constructor
  · intro hgt
    unfold handshake
    rw [if_neg (by simp), if_pos hgt]
  · intro hgt
    unfold handshake
    rw [if_neg (by simp), if_neg (by simp [hgt])]

/-- Witness for the amended C3: server 1.0.0 rejects HELLO 2.0.0 and
accepts HELLO 1.0.0. -/
theorem handshake_version_rule_witness :
    handshake ⟨1, 0, 0⟩ OPERATION_HELLO 2 0 0 =
      ([Msg.error "client version must be less than or equal to 1.0.0"], false) ∧
    handshake ⟨1, 0, 0⟩ OPERATION_HELLO 1 0 0 = ([Msg.ok], true) :=
  ⟨((handshake_version_rule ⟨1, 0, 0⟩ 2 0 0).1 (by decide)).trans (by decide),
   (handshake_version_rule ⟨1, 0, 0⟩ 1 0 0).2 (by decide)⟩

/-- Claim C9: an accepted HELLO (client version not greater than the
server version) is answered with an OK frame, whose opcode byte is 0x82,
before the request loop is entered. -/
theorem handshake_accept_sends_ok (sv : Version) (b1 b2 b3 : Nat)
    (h : Version.gt ⟨b1, b2, b3⟩ sv = false) :
    handshake sv OPERATION_HELLO b1 b2 b3 = ([Msg.ok], true) ∧
    msgOpcode Msg.ok = 0x82 := by
  constructor
  · unfold handshake
    rw [if_neg (by simp), if_neg (by simp [h])]
  · rfl

/-- Witness for C9: server 1.0.0 accepts HELLO 0.9.9 and replies OK. -/
theorem handshake_accept_sends_ok_witness :
    handshake ⟨1, 0, 0⟩ OPERATION_HELLO 0 9 9 = ([Msg.ok], true) ∧
    msgOpcode Msg.ok = 0x82 :=
  handshake_accept_sends_ok ⟨1, 0, 0⟩ 0 9 9 (by decide)

/-- Claim C4 as stated is false: a SET whose write-through fails with
StorageFull is answered with ERROR followed by a QUIT frame and the
connection is closed, not kept open. -/
theorem set_storage_full_counterexample :
    (loopStep LeastRecentlyUsed.select_victim ⟨⟨[], 1⟩, ⟨[], true⟩⟩
      OPERATION_SET "a" "b" 5).closed = true ∧
    Msg.quit ∈ (loopStep LeastRecentlyUsed.select_victim ⟨⟨[], 1⟩, ⟨[], true⟩⟩
      OPERATION_SET "a" "b" 5).msgs := by
  exact ⟨by decide, by decide⟩

/-- Claim C4 (amended): when the cache set succeeds and the write-through
fails with StorageFull, the server sends ERROR with the fixed message
"storage must have free space", then sends QUIT, and closes the
connection; the cache mutation persists, the storage is unchanged. -/
theorem set_storage_full_closes (policy : Policy) (st : ConnState)
    (key value : String) (now : Nat) (cache2 : Cache)
    (hfull : st.storage.isFull = true)
    (hset : Cache.set policy st.cache key (Entry.new value now) = Except.ok cache2) :
    loopStep policy st OPERATION_SET key value now =
      ⟨[Msg.error "storage must have free space", Msg.quit], true,
        ⟨cache2, st.storage⟩⟩ := by
  unfold loopStep requestBody
  rw [if_pos rfl, hset, Storage.write, if_pos hfull]
  rfl

/-- Witness for the amended C4 at a concrete state with a full store. -/
theorem set_storage_full_closes_witness :
    loopStep LeastRecentlyUsed.select_victim ⟨⟨[], 2⟩, ⟨[("k", "w")], true⟩⟩
      OPERATION_SET "a" "b" 5 =
      ⟨[Msg.error "storage must have free space", Msg.quit], true,
        ⟨⟨[("a", ⟨"b", 5, 1⟩)], 2⟩, ⟨[("k", "w")], true⟩⟩⟩ :=
  set_storage_full_closes LeastRecentlyUsed.select_victim
    ⟨⟨[], 2⟩, ⟨[("k", "w")], true⟩⟩ "a" "b" 5 ⟨[("a", ⟨"b", 5, 1⟩)], 2⟩
    (by decide) (by decide)

/-- Claim C5 as stated is false: an unknown opcode byte (0x07) is answered
with a single ERROR frame, no QUIT is sent and the connection stays open. -/
theorem invalid_opcode_counterexample :
    (loopStep LeastRecentlyUsed.select_victim ⟨⟨[], 1⟩, ⟨[], false⟩⟩
      7 "" "" 0).closed = false ∧
    Msg.quit ∉ (loopStep LeastRecentlyUsed.select_victim ⟨⟨[], 1⟩, ⟨[], false⟩⟩
      7 "" "" 0).msgs := by
  exact ⟨by decide, by decide⟩

/-- Claim C5 (amended): a byte that is none of the request opcodes makes
the server send ERROR "operation must be valid" and keep the connection
open: the state is unchanged, no QUIT frame is written and the request
loop continues. -/
theorem invalid_opcode_keeps_connection (policy : Policy) (st : ConnState)
    (opcode : Nat) (key value : String) (now : Nat)
    (hset : opcode ≠ OPERATION_SET) (hdel : opcode ≠ OPERATION_DEL)
    (hget : opcode ≠ OPERATION_GET) (hnop : opcode ≠ OPERATION_NOP)
    (hquit : opcode ≠ OPERATION_QUIT) :
    loopStep policy st opcode key value now =
      ⟨[Msg.error "operation must be valid"], false, st⟩ := by
  unfold loopStep requestBody
  rw [if_neg hset, if_neg hdel, if_neg hget, if_neg hnop, if_neg hquit]
  rfl

/-- Witness for the amended C5 at opcode 0x07. -/
theorem invalid_opcode_keeps_connection_witness :
    loopStep LeastRecentlyUsed.select_victim ⟨⟨[], 1⟩, ⟨[], false⟩⟩ 7 "x" "y" 3 =
      ⟨[Msg.error "operation must be valid"], false, ⟨⟨[], 1⟩, ⟨[], false⟩⟩⟩ :=
  invalid_opcode_keeps_connection LeastRecentlyUsed.select_victim
    ⟨⟨[], 1⟩, ⟨[], false⟩⟩ 7 "x" "y" 3
    (by decide) (by decide) (by decide) (by decide) (by decide)

theorem set_absent_lookup (policy : Policy) (c : Cache) (key : String)
    (entry : Entry) (c2 : Cache)
    (habsent : lookupEntry c.entries key = none)
    (hset : Cache.set policy c key entry = Except.ok c2) :
    lookupEntry c2.entries key = some entry := by
  rw [Cache.set, habsent] at hset
  by_cases hfull : c.entries.length = c.capacity
  · rw [if_pos hfull] at hset
    rcases hvic : policy c.entries with msg | victim
    · rw [hvic] at hset; cases hset
    · rw [hvic] at hset
      cases hset
      exact lookupEntry_append_single _ key entry
        (lookupEntry_eraseKey_none c.entries key victim habsent)
  · rw [if_neg hfull] at hset
    cases hset
    exact lookupEntry_append_single _ key entry habsent

theorem set_full_absent_policy (policy : Policy) (c : Cache) (key : String)
    (entry : Entry) (c2 : Cache)
    (hfull : c.entries.length = c.capacity)
    (habsent : lookupEntry c.entries key = none)
    (hset : Cache.set policy c key entry = Except.ok c2) :
    ∃ victim, policy c.entries = Except.ok victim ∧
      c2.entries = eraseKey c.entries victim ++ [(key, entry)] := by
  rw [Cache.set, habsent, if_pos hfull] at hset
  rcases hvic : policy c.entries with msg | victim
  · rw [hvic] at hset; cases hset
  · rw [hvic] at hset
    cases hset
    exact ⟨victim, rfl, rfl⟩

/-- Claim C10: a GET that misses the cache but hits storage promotes the
value through cache.set with a fresh entry whose access_count is exactly 1
(the miss adds no increment), replies VALUE and keeps the connection; when
the cache is full at promotion time the set goes through the eviction
branch, removing the policy's victim. -/
theorem get_miss_promotes_count_one (policy : Policy) (st : ConnState)
    (key value2 : String) (now : Nat) (v : String) (cache3 : Cache)
    (hmiss : lookupEntry st.cache.entries key = none)
    (hread : Storage.read st.storage key = some v)
    (hset : Cache.set policy st.cache key (Entry.new v now) = Except.ok cache3) :
    loopStep policy st OPERATION_GET key value2 now =
      ⟨[Msg.value v], false, ⟨cache3, st.storage⟩⟩ ∧
    lookupEntry cache3.entries key = some ⟨v, now, 1⟩ ∧
    (st.cache.entries.length = st.cache.capacity →
      ∃ victim, policy st.cache.entries = Except.ok victim ∧
        cache3.entries = eraseKey st.cache.entries victim ++
          [(key, Entry.new v now)]) := by
  have hgot : Cache.get st.cache key now = (none, st.cache) := by
    unfold Cache.get
    rw [hmiss]
  refine ⟨?_, ?_, ?_⟩
  · unfold loopStep requestBody
    rw [if_neg (by decide), if_neg (by decide), if_pos rfl]
    simp only [hgot, hread, hset]
  · exact set_absent_lookup policy st.cache key (Entry.new v now) cache3 hmiss hset
  · intro hfull
    exact set_full_absent_policy policy st.cache key (Entry.new v now) cache3
      hfull hmiss hset

/-- Witness for C10: a full one-slot LRU cache promotes a storage hit,
evicting the resident entry; the promoted entry has access_count 1. -/
theorem get_miss_promotes_count_one_witness :
    loopStep LeastRecentlyUsed.select_victim
      ⟨⟨[("x", ⟨"old", 1, 1⟩)], 1⟩, ⟨[("a", "val")], false⟩⟩
      OPERATION_GET "a" "" 7 =
      ⟨[Msg.value "val"], false,
        ⟨⟨[("a", ⟨"val", 7, 1⟩)], 1⟩, ⟨[("a", "val")], false⟩⟩⟩ ∧
    lookupEntry ([("a", (⟨"val", 7, 1⟩ : Entry))] : Table) "a" =
      some ⟨"val", 7, 1⟩ :=
  ⟨(get_miss_promotes_count_one LeastRecentlyUsed.select_victim
     ⟨⟨[("x", ⟨"old", 1, 1⟩)], 1⟩, ⟨[("a", "val")], false⟩⟩ "a" "" 7 "val"
     ⟨[("a", ⟨"val", 7, 1⟩)], 1⟩ (by decide) (by decide) (by decide)).1,
   (get_miss_promotes_count_one LeastRecentlyUsed.select_victim
     ⟨⟨[("x", ⟨"old", 1, 1⟩)], 1⟩, ⟨[("a", "val")], false⟩⟩ "a" "" 7 "val"
     ⟨[("a", ⟨"val", 7, 1⟩)], 1⟩ (by decide) (by decide) (by decide)).2.1⟩
